/-
Verification of the streamlit-dynamic-filters package
(file streamlit_dynamic_filters/dynamic_filters.py).

The development shallowly embeds the state-reconciliation core of the
package: the dataframe is a list of rows, a row is an association list
from column names to values, the persisted session slot holding the
filter selections is an ordered association list mirroring the Python
dict, and the Streamlit widgets are modelled as functions supplied by
the environment (a multiselect widget maps the widget key, the sorted
option list and the seeded default to the captured selection).
-/
import Mathlib

namespace DynFilters

/-- Cell values of the dataframe (categorical filter values and the
numeric cells of the groupby variant are both modelled as integers). -/
abbrev Value := Int

/-- A dataframe row: association list from column name to cell value. -/
abbrev Row := List (String × Value)

/-- Column access `row[col]`, as used by `filtered_df[key]` in the source.
Rows of a well-formed dataframe contain every referenced column; the
default 0 only totalises the function. -/
def Row.getCol (r : Row) (c : String) : Value :=
  ((r.find? (fun kv => kv.1 = c)).map Prod.snd).getD 0

/-- A dataframe: list of rows (order and multiplicity preserved,
as pandas boolean-mask selection does). -/
abbrev DataFrame := List Row

/-- The persisted filter slot `st.session_state[self.filters_name]`:
an ordered map from filter (column) name to the selected values,
mirroring the Python dict `{filter_name: [...]}`. -/
abbrev FilterState := List (String × List Value)

/-- Read `st.session_state[filters_name][k]` (first matching key, as in a
Python dict whose keys are unique). -/
def getSel : FilterState → String → List Value
  | [], _ => []
  | kv :: rest, k => if kv.1 = k then kv.2 else getSel rest k

/-- Write `st.session_state[filters_name][k] = v`: replace the value at
key `k`, leaving the key order untouched (Python dict item assignment
for an existing key). -/
def setSel (state : FilterState) (k : String) (v : List Value) : FilterState :=
  state.map (fun kv => if kv.1 = k then (k, v) else kv)

/-- Generic form of the `filter_df` loop of `DynamicFilters.filter_df`
(dynamic_filters.py lines 80-84): starting from a copy of the dataframe,
for every state entry whose key differs from the excluded filter and
whose selection list is non-empty, keep the rows whose cell at that key
is one of the selected values.  `proj` extracts the row from a dataframe
element (identity for plain dataframes, `Prod.snd` for index-carrying
dataframes). -/
def filterFold {α : Type} (proj : α → Row) (df : List α) (state : FilterState)
    (e : Option String) : List α :=
  state.foldl
    (fun acc kv =>
      if some kv.1 ≠ e ∧ kv.2 ≠ [] then
        acc.filter (fun x => decide ((proj x).getCol kv.1 ∈ kv.2))
      else acc)
    df

/-- `DynamicFilters.filter_df(except_filter)` (lines 66-84): `e = none`
models `except_filter=None`. -/
def filterDf (df : DataFrame) (state : FilterState) (e : Option String) : DataFrame :=
  filterFold id df state e

/-- `DynamicFiltersHierarchical.filter_df(except_filter, except_filter_tab)`
(lines 252-278): additionally skips every filter whose name is in the
exclusion list `tab`. -/
def filterDfH (df : DataFrame) (state : FilterState) (e : Option String)
    (tab : List String) : DataFrame :=
  state.foldl
    (fun acc kv =>
      if some kv.1 ≠ e ∧ kv.1 ∉ tab ∧ kv.2 ≠ [] then
        acc.filter (fun x => decide (x.getCol kv.1 ∈ kv.2))
      else acc)
    df

/-- Declarative row predicate extracted from the specification of
`filter_df`: a row survives iff for every state entry that is not the
excluded filter and has a non-empty selection, the cell at that key is
a member of the selection.  Used to compare the iterated fold against
the stated contract. -/
def keepsRow (state : FilterState) (e : Option String) (r : Row) : Bool :=
  state.all (fun kv =>
    if some kv.1 ≠ e ∧ kv.2 ≠ [] then decide (r.getCol kv.1 ∈ kv.2) else true)

/-- `Series.unique().tolist()` of pandas: the distinct values of a list
in order of first occurrence. -/
def uniqueList {α : Type} [DecidableEq α] : List α → List α
  | [] => []
  | x :: xs => x :: uniqueList (xs.filter (fun y => decide (y ≠ x)))
termination_by l => l.length
decreasing_by
  simp only [List.length_cons]
  exact Nat.lt_succ_of_le (List.length_filter_le _ _)

/-- `sorted(...)` of Python / the key ordering of a pandas groupby:
insertion of an element into a list sorted by the strict order `lt`. -/
def insertBy {α : Type} (lt : α → α → Bool) (x : α) : List α → List α
  | [] => [x]
  | y :: ys => if lt x y then x :: y :: ys else y :: insertBy lt x ys

/-- Insertion sort by the strict order `lt`. -/
def sortBy {α : Type} (lt : α → α → Bool) : List α → List α
  | [] => []
  | x :: xs => insertBy lt x (sortBy lt xs)

/-- Option set for a filter in the independent variant
(`self.filter_df(filter_name)` followed by `.unique().tolist()`,
dynamic_filters.py lines 178-179). -/
def optionsFor (df : DataFrame) (state : FilterState) (k : String) : List Value :=
  uniqueList ((filterDf df state (some k)).map (fun r => r.getCol k))

/-- The pruning block shared verbatim by all three variants
(lines 181-189, 377-385 and 560-568): intersect the persisted selection
with the option list keeping the previous order, and, when this changes
the selection, persist the pruned list at once and raise the dirty
flag. -/
def prunePhaseWith (options : List Value) (acc : FilterState × Bool) (k : String) :
    FilterState × Bool :=
  let prev := getSel acc.1 k
  let valid := prev.filter (fun v => decide (v ∈ options))
  if valid = prev then acc else (setSel acc.1 k valid, true)

/-- One iteration of the `display_filters` loop of the independent
variant (lines 177-223), the rendering layout stripped: compute options,
prune, render the multiselect seeded with the (possibly pruned)
selection, and persist the captured selection when it differs.
`widget` maps (widget key, sorted options, seeded default) to the
selection the user leaves in the widget. -/
def displayStep (df : DataFrame)
    (widget : String → List Value → List Value → List Value)
    (acc : FilterState × Bool) (k : String) : FilterState × Bool :=
  let options := optionsFor df acc.1 k
  let acc2 := prunePhaseWith options acc k
  let selected := widget k (sortBy (fun a b => decide (a < b)) options) (getSel acc2.1 k)
  if selected = getSel acc2.1 k then acc2 else (setSel acc2.1 k selected, true)

/-- The state effect of `DynamicFilters.display_filters` after argument
validation (lines 169-228): fold the per-filter step over the keys of
the session slot, starting with the dirty flag down; the second
component is the final `filters_changed`, which decides the rerun. -/
def displayPass (df : DataFrame)
    (widget : String → List Value → List Value → List Value)
    (state : FilterState) : FilterState × Bool :=
  (state.map Prod.fst).foldl (displayStep df widget) (state, false)

/-- A widget in which the user touches nothing: the captured selection
is the seeded default. -/
def echoWidget : String → List Value → List Value → List Value :=
  fun _ _ default => default

/-- The option-derivation-and-pruning content of one loop iteration:
what `displayStep` does when the widget echoes the seeded default. -/
def pruneStep (df : DataFrame) (acc : FilterState × Bool) (k : String) :
    FilterState × Bool :=
  prunePhaseWith (optionsFor df acc.1 k) acc k

/-- A row satisfies every non-empty filter of the state (no filter
excluded). -/
def rowMatchesAll (state : FilterState) (r : Row) : Prop :=
  ∀ kv ∈ state, kv.2 ≠ [] → r.getCol kv.1 ∈ kv.2

/-- Every selected value of every filter named in `names` is witnessed
by a dataframe row that satisfies the whole current state.  This is the
invariant the reconciliation pass establishes; it makes every later
pruning a no-op. -/
def selectionsGrounded (df : DataFrame) (state : FilterState)
    (names : List String) : Prop :=
  ∀ n ∈ names, ∀ v ∈ getSel state n,
    ∃ r ∈ df, r.getCol n = v ∧ rowMatchesAll state r

/-- The argument validation block at the top of `display_filters`
(dynamic_filters.py lines 140-166), in source order.  `location = none`
models `location=None`; the `isinstance(num_columns, int)` guard is
subsumed by the type of `numColumns` in this typed embedding.
`numFilters` is `len(st.session_state[self.filters_name])`.  Returns the
message of the raised `StreamlitAPIException`, or `none` when no check
fires.  Note the source has no lower bound check on `num_columns`. -/
def validateDisplayArgs (location : Option String) (numColumns : Int)
    (gap : String) (rerunScope : String) (numFilters : Nat) : Option String :=
  if ¬ (location = some "sidebar" ∨ location = some "columns" ∨ location = none) then
    some "location must be either sidebar or columns"
  else if numColumns > 8 then
    some "num-columns must be less than or equal to 8"
  else if numColumns > (numFilters : Int) + 1 then
    some "num-columns must be less than or equal to the number of filters"
  else if location = some "columns" ∧ numColumns = 0 then
    some "num-columns must be greater than 0 when location is columns"
  else if ¬ (gap = "small" ∨ gap = "medium" ∨ gap = "large") then
    some "gap must be either small, medium or large"
  else if ¬ (rerunScope = "app" ∨ rerunScope = "fragment" ∨ rerunScope = "auto") then
    some "rerun-scope must be either app, fragment or auto"
  else none

/-- The configurations the validation block actually rejects (note: no
lower bound on the column count). -/
def invalidDisplayArgs (location : Option String) (numColumns : Int)
    (gap : String) (rerunScope : String) (numFilters : Nat) : Prop :=
  ¬ (location = some "sidebar" ∨ location = some "columns" ∨ location = none) ∨
  numColumns > 8 ∨
  numColumns > (numFilters : Int) + 1 ∨
  (location = some "columns" ∧ numColumns = 0) ∨
  ¬ (gap = "small" ∨ gap = "medium" ∨ gap = "large") ∨
  ¬ (rerunScope = "app" ∨ rerunScope = "fragment" ∨ rerunScope = "auto")

/-- `DynamicFilters.display_filters` as a state transformer: validation
first, and only on success the reconciliation pass runs.  The first
component is the raised error message (if any); the remaining components
are the session slot after the call and the rerun flag.  On a validation
error the slot is returned untouched and no rerun is triggered, because
the source raises before the loop. -/
def displayFilters (df : DataFrame)
    (widget : String → List Value → List Value → List Value)
    (location : Option String) (numColumns : Int) (gap : String)
    (rerunScope : String) (state : FilterState) :
    Option String × FilterState × Bool :=
  match validateDisplayArgs location numColumns gap rerunScope state.length with
  | some e => (some e, state, false)
  | none => (none, displayPass df widget state)

/-- Option set computed for the filter at position `i` of the
hierarchical variant (dynamic_filters.py lines 371-375): at iteration
`i`, the list `hierarchical_filter_name` holds the keys from position
`i` on (the names before `i` were removed one per iteration), so the
candidate dataframe excludes the whole suffix starting at the filter
itself, and the options are the distinct values of the filter's column
in it.  `state` is the session slot at that moment of the loop. -/
def optionsAtH (df : DataFrame) (state : FilterState) (i : Nat) : List Value :=
  uniqueList
    ((filterDfH df state none ((state.map Prod.fst).drop i)).map
      (fun r => r.getCol ((state.map Prod.fst).getD i "")))

/-- The aggregation slot `st.session_state[self.aggregation_name]` of
`DynamicFiltersWithGroupby`: ordered map from filter name to its
aggregation flag. -/
abbrev AggState := List (String × Bool)

/-- `aggregation_columns` of `DynamicFiltersWithGroupby.display_df`
(lines 600-604): the filter columns whose aggregation flag is true, in
slot order. -/
def aggColumns (a : AggState) : List String :=
  (a.filter (fun kv => kv.2)).map Prod.fst

/-- The groupby key of a row: its tuple of values at the aggregation
columns. -/
def keyOf (cols : List String) (r : Row) : List Value :=
  cols.map (fun c => r.getCol c)

/-- Lexicographic strict order on groupby keys, the order in which
pandas `groupby` (with its default `sort=True`) emits the groups. -/
def keyLt : List Value → List Value → Bool
  | [], [] => false
  | [], _ :: _ => true
  | _ :: _, [] => false
  | a :: as, b :: bs => decide (a < b) || (decide (a = b) && keyLt as bs)

/-- One output row of the groupby: the key columns with the key values,
followed by each numeric column with its sum over the group. -/
def groupRow (fdf : List Row) (cols numerics : List String) (k : List Value) : Row :=
  cols.zip k ++
    numerics.map (fun n =>
      (n, ((fdf.filter (fun r => decide (keyOf cols r = k))).map
             (fun r => r.getCol n)).sum))

/-- `df[aggregation_columns + numerics].groupby(aggregation_columns,
as_index=False).sum()` (lines 606-610): one row per distinct key, keys
in sorted order, numeric columns summed per group. -/
def groupbySum (fdf : List Row) (cols numerics : List String) : List Row :=
  (sortBy keyLt (uniqueList (fdf.map (keyOf cols)))).map
    (groupRow fdf cols numerics)

/-- `DynamicFiltersWithGroupby.display_df` (lines 597-612) as the table
it renders: a list of (row label, row) pairs.  The filtered dataframe
keeps the original row labels (positions in the source dataframe, as a
default pandas RangeIndex); `df.index += 1` shifts every label by one.
When some aggregation flag is set and the filtered dataframe is
non-empty, the groupby result is rendered instead, its fresh 0-based
index also shifted by one. -/
def displayDfGb (df : DataFrame) (state : FilterState) (agg : AggState)
    (numerics : List String) : List (Nat × Row) :=
  let fdf := filterFold Prod.snd df.enum state none
  let cols := aggColumns agg
  if cols ≠ [] ∧ fdf.length > 0 then
    (groupbySum (fdf.map Prod.snd) cols numerics).enum.map
      (fun ir => (ir.1 + 1, ir.2))
  else
    fdf.map (fun ir => (ir.1 + 1, ir.2))

/-- The renumbering the specification describes for the ungrouped view:
sequential labels starting at 1, regardless of which source rows
survived.  Stated from the specification for comparison with
`displayDfGb`. -/
def renumberFromOne (l : List Row) : List (Nat × Row) :=
  l.enum.map (fun ir => (ir.1 + 1, ir.2))

/-- The part of a `DynamicFilters` object relevant here: the declared
filter column list and the dict object `self.filters` (created in
`__init__` as `{filter_name: [] for filter_name in filters}`). -/
structure FilterObj where
  declared : List String
  selfFilters : FilterState
deriving DecidableEq

/-- The session store restricted to the filter slot, together with the
aliasing fact the Python reference semantics creates:
`st.session_state[self.filters_name] = self.filters` in `check_state`
stores a reference, so after it the slot and `self.filters` are the same
dict object and in-place writes through the slot also change
`self.filters`.  `sharedWithSelf` records whether the slot currently
holds that very object. -/
structure Session where
  slot : Option FilterState
  sharedWithSelf : Bool
deriving DecidableEq

/-- The all-empty default `{filter_name: [] for filter_name in filters}`. -/
def emptyState (declared : List String) : FilterState :=
  declared.map (fun n => (n, []))

/-- `DynamicFilters.check_state` (lines 47-52): when the slot is absent,
install `self.filters` (a reference, hence shared); otherwise leave the
session untouched. -/
def checkState (obj : FilterObj) (s : Session) : Session :=
  match s.slot with
  | none => ⟨some obj.selfFilters, true⟩
  | some _ => s

/-- `DynamicFilters.__init__` (lines 29-45): build the object with
all-empty selections and call `check_state`. -/
def mkFilterObj (declared : List String) (s : Session) : FilterObj × Session :=
  let obj : FilterObj := ⟨declared, emptyState declared⟩
  (obj, checkState obj s)

/-- `DynamicFilters.reset_filters` (lines 54-64): delete the slot when
present, otherwise do nothing.  Deleting the session entry does not
destroy the dict object (the instance still references it), but no slot
is shared afterwards because no slot exists. -/
def resetFilters (_s : Session) : Session := ⟨none, false⟩

/-- The in-place write
`st.session_state[self.filters_name][filter_name] = value` performed by
the `display_filters` loop (lines 188 and 222): mutates the dict held in
the slot, hence also `self.filters` whenever the slot holds that object.
With the slot absent the source would raise a `KeyError`; the model
returns the pair untouched there (nothing is written either way). -/
def writeSel (k : String) (v : List Value) (obj : FilterObj) (s : Session) :
    FilterObj × Session :=
  match s.slot with
  | none => (obj, s)
  | some cur =>
      (if s.sharedWithSelf then { obj with selfFilters := setSel cur k v } else obj,
       { s with slot := some (setSel cur k v) })

/-- `DynamicFiltersWithGroupby.check_state` (lines 493-499) acting on
the pair (filter slot, aggregation slot): each slot is installed from
the instance default only when absent. -/
def checkStateGb (selfF : FilterState) (selfA : AggState)
    (s : Option FilterState × Option AggState) :
    Option FilterState × Option AggState :=
  (match s.1 with
   | none => some selfF
   | some v => some v,
   match s.2 with
   | none => some selfA
   | some v => some v)

/-- `DynamicFiltersWithGroupby.reset_filters` (lines 501-511): delete
the filter slot when present; the aggregation slot is not touched. -/
def resetFiltersGb (s : Option FilterState × Option AggState) :
    Option FilterState × Option AggState :=
  (none, s.2)

/-- The state effect of `DynamicFiltersWithGroupby.display_filters`
(lines 533-595) on present slots: the same per-filter prune/render/
capture fold as the independent variant (its `filter_df` is identical),
plus the rebuild of `aggregation_status` from the checkboxes, which is
written to the aggregation slot when it differs and then also raises the
dirty flag.  `checkbox` models the per-filter `st.checkbox` return. -/
def displayPassGb (df : DataFrame)
    (widget : String → List Value → List Value → List Value)
    (checkbox : String → Bool) (f : FilterState) (a : AggState) :
    FilterState × AggState × Bool :=
  let fd := (f.map Prod.fst).foldl (displayStep df widget) (f, false)
  let aggStatus := (f.map Prod.fst).map (fun n => (n, checkbox n))
  if aggStatus = a then (fd.1, a, fd.2) else (fd.1, aggStatus, true)

/-- `DynamicFiltersWithGroupby.display_filters` as an operation on the
two optional slots: with both slots present it runs the pass and writes
both back; with a slot absent the source raises a `KeyError` before
writing anything, so the slots are returned untouched. -/
def displayFiltersGbOp (df : DataFrame)
    (widget : String → List Value → List Value → List Value)
    (checkbox : String → Bool) (s : Option FilterState × Option AggState) :
    Option FilterState × Option AggState :=
  match s with
  | (some f, some a) =>
      let out := displayPassGb df widget checkbox f a
      (some out.1, some out.2.1)
  | other => other

theorem keepsRow_nil (e : Option String) (r : Row) : keepsRow [] e r = true := rfl

theorem keepsRow_cons (kv : String × List Value) (rest : FilterState)
    (e : Option String) (r : Row) :
    keepsRow (kv :: rest) e r =
      ((if some kv.1 ≠ e ∧ kv.2 ≠ [] then decide (r.getCol kv.1 ∈ kv.2) else true)
        && keepsRow rest e r) := by
  simp [keepsRow, List.all_cons]

/-- The iterated restriction computed by the `filter_df` fold is the
one-pass filter by the declarative row predicate. -/
theorem filterFold_eq_filter {α : Type} (proj : α → Row) (state : FilterState)
    (e : Option String) :
    ∀ df : List α, filterFold proj df state e =
      df.filter (fun x => keepsRow state e (proj x)) := by
  induction state with
  | nil =>
      intro df
      simp [filterFold, keepsRow]
  | cons kv rest ih =>
      intro df
      have hstep : filterFold proj df (kv :: rest) e =
          filterFold proj
            (if some kv.1 ≠ e ∧ kv.2 ≠ [] then
              df.filter (fun x => decide ((proj x).getCol kv.1 ∈ kv.2))
            else df) rest e := by
        by_cases hc : some kv.1 ≠ e ∧ kv.2 ≠ [] <;>
          simp [filterFold, List.foldl_cons, hc]
      rw [hstep, ih]
      by_cases hc : some kv.1 ≠ e ∧ kv.2 ≠ [] <;>
        simp [hc, keepsRow_cons, List.filter_filter, Bool.and_comm]

theorem filterDf_eq_filter (df : DataFrame) (state : FilterState) (e : Option String) :
    filterDf df state e = df.filter (fun r => keepsRow state e r) :=
  filterFold_eq_filter id state e df

theorem keepsRow_iff (state : FilterState) (e : Option String) (r : Row) :
    keepsRow state e r = true ↔
      ∀ kv ∈ state, some kv.1 ≠ e → kv.2 ≠ [] → r.getCol kv.1 ∈ kv.2 := by
  unfold keepsRow
  rw [List.all_eq_true]
  constructor
  · intro h kv hkv hne hnonempty
    have := h kv hkv
    rw [if_pos ⟨hne, hnonempty⟩] at this
    exact of_decide_eq_true this
  · intro h kv hkv
    by_cases hc : some kv.1 ≠ e ∧ kv.2 ≠ []
    · rw [if_pos hc]
      exact decide_eq_true (h kv hkv hc.1 hc.2)
    · rw [if_neg hc]

theorem mem_filterDf (df : DataFrame) (state : FilterState) (e : Option String)
    (r : Row) :
    r ∈ filterDf df state e ↔
      r ∈ df ∧ ∀ kv ∈ state, some kv.1 ≠ e → kv.2 ≠ [] → r.getCol kv.1 ∈ kv.2 := by
  rw [filterDf_eq_filter, List.mem_filter, keepsRow_iff]

theorem mem_uniqueList {α : Type} [DecidableEq α] (a : α) :
    ∀ l : List α, a ∈ uniqueList l ↔ a ∈ l := by
  suffices h : ∀ (n : Nat) (l : List α), l.length = n → (a ∈ uniqueList l ↔ a ∈ l) by
    intro l
    exact h l.length l rfl
  intro n
  induction n using Nat.strong_induction_on with
  | _ n ih =>
    intro l hn
    match l with
    | [] => simp [uniqueList]
    | x :: xs =>
      rw [uniqueList]
      by_cases hax : a = x
      · simp [hax]
      · have hlen : (xs.filter (fun y => decide (y ≠ x))).length < n := by
          rw [← hn]
          simp only [List.length_cons]
          exact Nat.lt_succ_of_le (List.length_filter_le _ _)
        have hthis := ih _ hlen (xs.filter (fun y => decide (y ≠ x))) rfl
        constructor
        · intro h
          rcases List.mem_cons.mp h with h1 | h1
          · exact List.mem_cons.mpr (Or.inl h1)
          · exact List.mem_cons.mpr (Or.inr (List.mem_filter.mp (hthis.mp h1)).1)
        · intro h
          rcases List.mem_cons.mp h with h1 | h1
          · exact List.mem_cons.mpr (Or.inl h1)
          · refine List.mem_cons.mpr (Or.inr (hthis.mpr (List.mem_filter.mpr ⟨h1, ?_⟩)))
            exact decide_eq_true hax

theorem nodup_uniqueList {α : Type} [DecidableEq α] :
    ∀ l : List α, (uniqueList l).Nodup := by
  suffices h : ∀ (n : Nat) (l : List α), l.length = n → (uniqueList l).Nodup by
    intro l
    exact h l.length l rfl
  intro n
  induction n using Nat.strong_induction_on with
  | _ n ih =>
    intro l hn
    match l with
    | [] => simp [uniqueList]
    | x :: xs =>
      rw [uniqueList]
      have hlen : (xs.filter (fun y => decide (y ≠ x))).length < n := by
        rw [← hn]
        simp only [List.length_cons]
        exact Nat.lt_succ_of_le (List.length_filter_le _ _)
      refine List.nodup_cons.mpr ⟨?_, ih _ hlen _ rfl⟩
      intro hmem
      have := (mem_uniqueList x _).mp hmem
      simp [List.mem_filter] at this

theorem getSel_cons (kv : String × List Value) (rest : FilterState) (k : String) :
    getSel (kv :: rest) k = if kv.1 = k then kv.2 else getSel rest k := rfl

theorem setSel_cons (kv : String × List Value) (rest : FilterState)
    (k : String) (v : List Value) :
    setSel (kv :: rest) k v =
      (if kv.1 = k then (k, v) else kv) :: setSel rest k v := rfl

theorem map_fst_setSel (s : FilterState) (k : String) (v : List Value) :
    (setSel s k v).map Prod.fst = s.map Prod.fst := by
  induction s with
  | nil => rfl
  | cons kv rest ih =>
      rw [setSel_cons, List.map_cons, List.map_cons, ih]
      by_cases hk : kv.1 = k
      · rw [if_pos hk, hk]
      · rw [if_neg hk]

theorem getSel_setSel_of_mem (s : FilterState) (k : String) (v : List Value)
    (h : k ∈ s.map Prod.fst) : getSel (setSel s k v) k = v := by
  induction s with
  | nil => simp at h
  | cons kv rest ih =>
      rw [setSel_cons]
      by_cases hk : kv.1 = k
      · rw [if_pos hk, getSel_cons, if_pos rfl]
      · rw [if_neg hk, getSel_cons, if_neg hk]
        apply ih
        rw [List.map_cons, List.mem_cons] at h
        rcases h with h1 | h1
        · exact absurd h1.symm hk
        · exact h1

theorem getSel_setSel_ne (s : FilterState) (k k2 : String) (v : List Value)
    (h : k2 ≠ k) : getSel (setSel s k v) k2 = getSel s k2 := by
  induction s with
  | nil => rfl
  | cons kv rest ih =>
      rw [setSel_cons, getSel_cons, getSel_cons]
      by_cases hk : kv.1 = k
      · rw [if_pos hk]
        have h1 : ¬ ((k, v).1 = k2) := fun he => h he.symm
        have h2 : ¬ kv.1 = k2 := by
          rw [hk]
          exact fun he => h he.symm
        rw [if_neg h1, if_neg h2, ih]
      · rw [if_neg hk]
        by_cases hk2 : kv.1 = k2
        · rw [if_pos hk2, if_pos hk2]
        · rw [if_neg hk2, if_neg hk2, ih]

theorem getSel_of_mem_nodup (s : FilterState) (k : String) (sel : List Value)
    (hnd : (s.map Prod.fst).Nodup) (hm : (k, sel) ∈ s) : getSel s k = sel := by
  induction s with
  | nil => simp at hm
  | cons kv rest ih =>
      rw [List.map_cons] at hnd
      have hnd2 := List.nodup_cons.mp hnd
      rcases List.mem_cons.mp hm with h1 | h1
      · rw [getSel_cons, ← h1, if_pos rfl]
      · have hne : ¬ kv.1 = k := by
          intro he
          refine hnd2.1 ?_
          rw [he]
          exact List.mem_map.mpr ⟨(k, sel), h1, rfl⟩
        rw [getSel_cons, if_neg hne]
        exact ih hnd2.2 h1

theorem mem_of_getSel (s : FilterState) (k : String)
    (h : k ∈ s.map Prod.fst) : (k, getSel s k) ∈ s := by
  induction s with
  | nil => simp at h
  | cons kv rest ih =>
      by_cases hk : kv.1 = k
      · rw [getSel_cons, if_pos hk]
        refine List.mem_cons.mpr (Or.inl ?_)
        rw [← hk]
      · rw [getSel_cons, if_neg hk]
        rw [List.map_cons, List.mem_cons] at h
        rcases h with h1 | h1
        · exact absurd h1.symm hk
        · exact List.mem_cons.mpr (Or.inr (ih h1))

theorem mem_setSel_elim (s : FilterState) (k : String) (v : List Value)
    (kv : String × List Value) (h : kv ∈ setSel s k v) :
    kv = (k, v) ∨ (kv ∈ s ∧ kv.1 ≠ k) := by
  rcases List.mem_map.mp h with ⟨kv0, hkv0, heq⟩
  by_cases hk : kv0.1 = k
  · left
    rw [← heq, if_pos hk]
  · right
    rw [← heq, if_neg hk]
    exact ⟨hkv0, hk⟩

theorem insertBy_perm {α : Type} (lt : α → α → Bool) (x : α) :
    ∀ l : List α, (insertBy lt x l).Perm (x :: l) := by
  intro l
  induction l with
  | nil => simp [insertBy]
  | cons y ys ih =>
      by_cases h : lt x y
      · simp [insertBy, h]
      · rw [insertBy, if_neg h]
        exact (ih.cons y).trans (List.Perm.swap x y ys)

theorem sortBy_perm {α : Type} (lt : α → α → Bool) :
    ∀ l : List α, (sortBy lt l).Perm l := by
  intro l
  induction l with
  | nil => simp [sortBy]
  | cons x xs ih => exact (insertBy_perm lt x (sortBy lt xs)).trans (ih.cons x)

theorem perm_all {α : Type} (p : α → Bool) {l1 l2 : List α} (h : l1.Perm l2) :
    l1.all p = l2.all p := by
  induction h with
  | nil => rfl
  | cons x h ih => simp [List.all_cons, ih]
  | swap x y l => simp [List.all_cons, Bool.and_left_comm]
  | trans h1 h2 ih1 ih2 => exact ih1.trans ih2

theorem mem_optionsFor (df : DataFrame) (state : FilterState) (k : String) (v : Value) :
    v ∈ optionsFor df state k ↔ ∃ r ∈ filterDf df state (some k), r.getCol k = v := by
  unfold optionsFor
  rw [mem_uniqueList]
  simp [List.mem_map]

theorem displayStep_echo (df : DataFrame) (acc : FilterState × Bool) (k : String) :
    displayStep df echoWidget acc k = pruneStep df acc k := by
  simp [displayStep, echoWidget, pruneStep]

theorem foldl_displayStep_echo (df : DataFrame) :
    ∀ (l : List String) (acc : FilterState × Bool),
      l.foldl (displayStep df echoWidget) acc = l.foldl (pruneStep df) acc := by
  intro l
  induction l with
  | nil => intro acc; rfl
  | cons x xs ih =>
      intro acc
      rw [List.foldl_cons, List.foldl_cons, displayStep_echo, ih]

/-- Claim C1: `filter_df(E)` returns a copy of the source dataframe
restricted to exactly the rows that, for every filter key other than `E`
with a non-empty selection list, take a value belonging to that
selection; filters with empty selection lists impose no restriction. -/
theorem filter_df_spec (df : DataFrame) (state : FilterState) (e : Option String) :
    filterDf df state e = df.filter (fun r => keepsRow state e r) ∧
    (∀ r : Row, keepsRow state e r = true ↔
      ∀ kv ∈ state, some kv.1 ≠ e → kv.2 ≠ [] → r.getCol kv.1 ∈ kv.2) :=
  ⟨filterDf_eq_filter df state e, fun r => keepsRow_iff state e r⟩

/-- Claim C6: the result of `filter_df` does not depend on the order in
which the state holds (hence applies) the non-excluded filters: any
permutation of the state yields the same filtered dataframe. -/
theorem filter_df_order_independent (df : DataFrame) (s1 s2 : FilterState)
    (e : Option String) (h : s1.Perm s2) :
    filterDf df s1 e = filterDf df s2 e := by
  rw [filterDf_eq_filter, filterDf_eq_filter]
  apply List.filter_congr
  intro r _
  unfold keepsRow
  exact perm_all _ h

theorem filter_df_order_independent_witness :
    ([(("a" : String), [(1 : Value)]), ("b", [])] : FilterState).Perm
        [("b", []), ("a", [1])] ∧
    filterDf [[("a", 1)]] [("a", [1]), ("b", [])] none =
      filterDf [[("a", 1)]] [("b", []), ("a", [1])] none :=
  ⟨List.Perm.swap _ _ _,
   filter_df_order_independent _ _ _ _ (List.Perm.swap _ _ _)⟩

/-- Claim C9: the state initializer is idempotent: when the named slot
(and, in the aggregation variant, the aggregation slot) already exists,
`check_state` leaves the existing contents unchanged. -/
theorem check_state_idempotent :
    (∀ (obj : FilterObj) (v : FilterState) (b : Bool),
       checkState obj ⟨some v, b⟩ = ⟨some v, b⟩) ∧
    (∀ (selfF : FilterState) (selfA : AggState) (v : FilterState) (w : AggState),
       checkStateGb selfF selfA (some v, some w) = (some v, some w)) :=
  ⟨fun _ _ _ => rfl, fun _ _ _ _ => rfl⟩

/-- Claim C10: in the aggregation variant, `reset_filters` deletes only
the filter slot and returns the aggregation slot unchanged; moreover no
operation of the variant removes a present aggregation slot
(`check_state` always leaves it present and `display_filters` rewrites
but never deletes it). -/
theorem reset_filters_gb_frame :
    (∀ s : Option FilterState × Option AggState,
       resetFiltersGb s = (none, s.2)) ∧
    (∀ (selfF : FilterState) (selfA : AggState)
       (s : Option FilterState × Option AggState),
       ((checkStateGb selfF selfA s).2).isSome = true) ∧
    (∀ (df : DataFrame) (widget : String → List Value → List Value → List Value)
       (checkbox : String → Bool) (s : Option FilterState × Option AggState),
       ((displayFiltersGbOp df widget checkbox s).2).isSome = s.2.isSome) := by
  refine ⟨fun s => rfl, fun selfF selfA s => ?_, fun df w c s => ?_⟩
  · cases h : s.2 <;> simp [checkStateGb, h]
  · rcases s with ⟨f, a⟩
    cases f <;> cases a <;> simp [displayFiltersGbOp]

set_option maxHeartbeats 1000000 in
theorem validate_isSome_iff (location : Option String) (numColumns : Int)
    (gap rerunScope : String) (numFilters : Nat) :
    (validateDisplayArgs location numColumns gap rerunScope numFilters).isSome = true ↔
      invalidDisplayArgs location numColumns gap rerunScope numFilters := by
  unfold validateDisplayArgs invalidDisplayArgs
  split_ifs with h1 h2 h3 h4 h5 h6 <;> simp <;>
    first
      | tauto
      | (push_neg at h2 h3; tauto)

theorem displayFilters_fst (df : DataFrame)
    (widget : String → List Value → List Value → List Value)
    (location : Option String) (numColumns : Int) (gap rerunScope : String)
    (state : FilterState) :
    (displayFilters df widget location numColumns gap rerunScope state).1 =
      validateDisplayArgs location numColumns gap rerunScope state.length := by
  cases h : validateDisplayArgs location numColumns gap rerunScope state.length with
  | none => simp [displayFilters, h]
  | some e => simp [displayFilters, h]

/-- Claim C3 (amended): `display_filters` raises a configuration error,
before any persisted state is mutated and before anything is rendered,
if and only if the location is not sidebar/columns/unset, or the column
count exceeds 8, or exceeds the number of filters plus one, or location
is columns with a zero column count, or the gap or rerun scope is
invalid.  The source imposes no lower bound on the column count, so a
negative count is not a rejected configuration. -/
theorem display_filters_validation (df : DataFrame)
    (widget : String → List Value → List Value → List Value)
    (location : Option String) (numColumns : Int) (gap rerunScope : String)
    (state : FilterState) :
    (((displayFilters df widget location numColumns gap rerunScope state).1).isSome = true ↔
       invalidDisplayArgs location numColumns gap rerunScope state.length) ∧
    (∀ e : String,
       (displayFilters df widget location numColumns gap rerunScope state).1 = some e →
       (displayFilters df widget location numColumns gap rerunScope state).2 =
         (state, false)) := by
  constructor
  · rw [displayFilters_fst]
    exact validate_isSome_iff location numColumns gap rerunScope state.length
  · intro e he
    rw [displayFilters_fst] at he
    unfold displayFilters
    rw [he]

/-- Claim C3 counterexample: the claim demands an error whenever the
column count is not a non-negative integer at most 8, but a negative
column count passes every check of the source and no error is raised. -/
theorem display_filters_validation_cex :
    (displayFilters [] echoWidget none (-1) "small" "auto" [("a", [])]).1 = none ∧
    (-1 : Int) < 0 :=
  ⟨rfl, by decide⟩

theorem prunePhaseWith_eq (options : List Value) (acc : FilterState × Bool)
    (k : String) :
    prunePhaseWith options acc k =
      if (getSel acc.1 k).filter (fun v => decide (v ∈ options)) = getSel acc.1 k
      then acc
      else (setSel acc.1 k ((getSel acc.1 k).filter (fun v => decide (v ∈ options))),
            true) := rfl

/-- Claim C2: in each loop iteration of `display_filters` (all variants
route through the same pruning block), the new persisted selection is
the previous selection intersected with the freshly computed option
list, in the previous relative order; when this differs from the
previous selection, the pruned list is persisted (the widget default
reads it) and the dirty flag is set, otherwise state and flag are left
alone; and every value of the resulting persisted selection is a member
of the option list. -/
theorem pruning_matches_spec (options : List Value) (state : FilterState)
    (dirty : Bool) (k : String) (h : k ∈ state.map Prod.fst) :
    prunePhaseWith options (state, dirty) k =
      (if (getSel state k).filter (fun v => decide (v ∈ options)) = getSel state k
       then (state, dirty)
       else (setSel state k ((getSel state k).filter (fun v => decide (v ∈ options))),
             true)) ∧
    getSel (prunePhaseWith options (state, dirty) k).1 k =
      (getSel state k).filter (fun v => decide (v ∈ options)) ∧
    (∀ v ∈ getSel (prunePhaseWith options (state, dirty) k).1 k, v ∈ options) := by
  have h2 : getSel (prunePhaseWith options (state, dirty) k).1 k =
      (getSel state k).filter (fun v => decide (v ∈ options)) := by
    rw [prunePhaseWith_eq]
    by_cases hvp :
        (getSel state k).filter (fun v => decide (v ∈ options)) = getSel state k
    · rw [if_pos hvp, hvp]
    · rw [if_neg hvp]
      exact getSel_setSel_of_mem state k _ h
  refine ⟨prunePhaseWith_eq options (state, dirty) k, h2, ?_⟩
  intro v hv
  rw [h2] at hv
  exact of_decide_eq_true (List.mem_filter.mp hv).2

theorem pruning_matches_spec_witness :
    ("a" ∈ ([("a", [1, 2])] : FilterState).map Prod.fst) ∧
    getSel (prunePhaseWith [2] ([("a", [1, 2])], false) "a").1 "a" =
      (getSel [("a", [1, 2])] "a").filter (fun v => decide (v ∈ [(2 : Value)])) :=
  ⟨by decide, (pruning_matches_spec [2] [("a", [1, 2])] false "a" (by decide)).2.1⟩

theorem filterDfH_append (df : DataFrame) (l1 l2 : FilterState)
    (e : Option String) (tab : List String) :
    filterDfH df (l1 ++ l2) e tab = filterDfH (filterDfH df l1 e tab) l2 e tab := by
  unfold filterDfH
  rw [List.foldl_append]

theorem filterDfH_skip (e : Option String) (tab : List String) :
    ∀ l : FilterState, (∀ kv ∈ l, kv.1 ∈ tab) → ∀ df, filterDfH df l e tab = df := by
  intro l
  induction l with
  | nil => intro _ df; rfl
  | cons kv rest ih =>
      intro h df
      have hmem : kv.1 ∈ tab := h kv (List.mem_cons_self kv rest)
      have hc : ¬ (some kv.1 ≠ e ∧ kv.1 ∉ tab ∧ kv.2 ≠ []) := fun hc => hc.2.1 hmem
      show List.foldl _ df (kv :: rest) = df
      rw [List.foldl_cons, if_neg hc]
      exact ih (fun kv2 hm => h kv2 (List.mem_cons.mpr (Or.inr hm))) _

theorem filterDfH_drop_suffix (df : DataFrame) (s : FilterState) (i : Nat)
    (tab : List String) (htab : ∀ kv ∈ s.drop i, kv.1 ∈ tab) :
    filterDfH df s none tab = filterDfH df (s.take i) none tab := by
  conv_lhs => rw [← List.take_append_drop i s]
  rw [filterDfH_append]
  exact filterDfH_skip none tab (s.drop i) htab _

/-- Claim C7: in the hierarchical variant, the option set derived for
the filter at position `i` is a function of the state entries strictly
before `i` alone (the candidate dataframe excludes the whole suffix
from `i` on): two states with the same key order that agree on the
first `i` entries yield the same option set at `i`; in particular a
change to a later selection never changes an earlier option set. -/
theorem hierarchical_options_prefix_determined (df : DataFrame)
    (s1 s2 : FilterState) (i : Nat)
    (hkeys : s1.map Prod.fst = s2.map Prod.fst)
    (htake : s1.take i = s2.take i) :
    optionsAtH df s1 i = optionsAtH df s2 i := by
  have h1 : filterDfH df s1 none ((s1.map Prod.fst).drop i) =
      filterDfH df (s1.take i) none ((s1.map Prod.fst).drop i) := by
    refine filterDfH_drop_suffix df s1 i _ (fun kv hm => ?_)
    rw [← List.map_drop]
    exact List.mem_map.mpr ⟨kv, hm, rfl⟩
  have h2 : filterDfH df s2 none ((s2.map Prod.fst).drop i) =
      filterDfH df (s2.take i) none ((s2.map Prod.fst).drop i) := by
    refine filterDfH_drop_suffix df s2 i _ (fun kv hm => ?_)
    rw [← List.map_drop]
    exact List.mem_map.mpr ⟨kv, hm, rfl⟩
  unfold optionsAtH
  rw [h1, h2, htake, hkeys]

theorem hierarchical_options_prefix_determined_witness :
    (([("a", [1]), ("b", [2])] : FilterState).map Prod.fst =
       ([("a", [1]), ("b", [3])] : FilterState).map Prod.fst) ∧
    (([("a", [1]), ("b", [2])] : FilterState).take 1 =
       ([("a", [1]), ("b", [3])] : FilterState).take 1) ∧
    optionsAtH [[("a", 1), ("b", 2)], [("a", 1), ("b", 3)]]
        [("a", [1]), ("b", [2])] 1 =
      optionsAtH [[("a", 1), ("b", 2)], [("a", 1), ("b", 3)]]
        [("a", [1]), ("b", [3])] 1 :=
  ⟨by decide, by decide,
   hierarchical_options_prefix_determined _ _ _ 1 (by decide) (by decide)⟩

/-- Claim C4 counterexample: construct the instance while the slot is
absent (the slot then holds the very dict `self.filters`), write a
selection through the session slot as the display loop does, reset, and
call `check_state` again on the same instance: the slot is repopulated
with the mutated mapping, whose selection list is not empty. -/
theorem reset_then_check_state_cex :
    (checkState
        (writeSel "a" [1] (mkFilterObj ["a"] ⟨none, false⟩).1
          (mkFilterObj ["a"] ⟨none, false⟩).2).1
        (resetFilters
          (writeSel "a" [1] (mkFilterObj ["a"] ⟨none, false⟩).1
            (mkFilterObj ["a"] ⟨none, false⟩).2).2)).slot =
      some [("a", [1])] ∧
    ([(1 : Value)] : List Value) ≠ [] :=
  ⟨rfl, by decide⟩

/-- Claim C4 (amended): `reset_filters` always deletes the slot (a no-op
when the slot is absent), and the next `check_state` on the same
instance repopulates the slot with the instance's current filters
mapping; every selection list of the repopulated slot is empty provided
that mapping still is the all-empty construction default (in particular
when no selection has been written through a session slot shared with
this instance since construction). -/
theorem reset_then_check_state (obj : FilterObj) (s : Session)
    (h : obj.selfFilters = emptyState obj.declared) :
    (resetFilters s).slot = none ∧
    (checkState obj (resetFilters s)).slot = some (emptyState obj.declared) ∧
    (∀ kv ∈ emptyState obj.declared, kv.2 = ([] : List Value)) := by
  refine ⟨rfl, ?_, ?_⟩
  · show (checkState obj ⟨none, false⟩).slot = _
    unfold checkState
    simp [h]
  · intro kv hkv
    rcases List.mem_map.mp hkv with ⟨n, _, he⟩
    rw [← he]

theorem reset_then_check_state_witness :
    ((⟨["a"], [("a", [])]⟩ : FilterObj).selfFilters = emptyState ["a"]) ∧
    (checkState ⟨["a"], [("a", [])]⟩ (resetFilters ⟨some [("a", [5])], true⟩)).slot =
      some (emptyState ["a"]) :=
  ⟨by decide,
   (reset_then_check_state ⟨["a"], [("a", [])]⟩ ⟨some [("a", [5])], true⟩
      (by decide)).2.1⟩

theorem grounded_mem_options (df : DataFrame) (state : FilterState) (k : String)
    (r : Row) (hrdf : r ∈ df) (hmatch : rowMatchesAll state r) :
    r.getCol k ∈ optionsFor df state k := by
  rw [mem_optionsFor]
  refine ⟨r, ?_, rfl⟩
  rw [mem_filterDf]
  exact ⟨hrdf, fun kv hkv _ hnonempty => hmatch kv hkv hnonempty⟩

theorem selectionsGrounded_mono (df : DataFrame) (state : FilterState)
    (l1 l2 : List String) (hsub : ∀ n ∈ l2, n ∈ l1)
    (h : selectionsGrounded df state l1) : selectionsGrounded df state l2 :=
  fun n hn => h n (hsub n hn)

theorem pruneStep_invariant (df : DataFrame) (state : FilterState) (dirty : Bool)
    (processed : List String) (k : String)
    (hnd : (state.map Prod.fst).Nodup)
    (hk : k ∈ state.map Prod.fst)
    (hkp : k ∉ processed)
    (hI : selectionsGrounded df state processed) :
    ((pruneStep df (state, dirty) k).1.map Prod.fst = state.map Prod.fst) ∧
    selectionsGrounded df (pruneStep df (state, dirty) k).1 (k :: processed) := by
  have hwitness : ∀ v ∈ (getSel state k).filter
      (fun v => decide (v ∈ optionsFor df state k)),
      ∃ r ∈ df, r.getCol k = v ∧
        (∀ kv ∈ state, kv.1 ≠ k → kv.2 ≠ [] → r.getCol kv.1 ∈ kv.2) := by
    intro v hv
    have hvopt : v ∈ optionsFor df state k :=
      of_decide_eq_true (List.mem_filter.mp hv).2
    rcases (mem_optionsFor df state k v).mp hvopt with ⟨r, hrF, hre⟩
    rcases (mem_filterDf df state (some k) r).mp hrF with ⟨hrdf, hall⟩
    refine ⟨r, hrdf, hre, fun kv hkv hne hnonempty => ?_⟩
    exact hall kv hkv (fun he => hne (Option.some.inj he)) hnonempty
  unfold pruneStep
  rw [prunePhaseWith_eq]
  by_cases hvp : (getSel state k).filter
      (fun v => decide (v ∈ optionsFor df state k)) = getSel state k
  · rw [if_pos hvp]
    refine ⟨rfl, ?_⟩
    intro n hn v hv
    rcases List.mem_cons.mp hn with hnk | hnp
    · subst hnk
      rw [← hvp] at hv
      rcases hwitness v hv with ⟨r, hrdf, hre, hother⟩
      refine ⟨r, hrdf, hre, ?_⟩
      intro kv hkv hnonempty
      by_cases hkvk : kv.1 = n
      · have hself : (n, kv.2) ∈ state := by
          rw [← hkvk]
          exact hkv
        have hthis : getSel state n = kv.2 := getSel_of_mem_nodup state n kv.2 hnd hself
        rw [hkvk, hre, ← hthis]
        exact (List.mem_filter.mp hv).1
      · exact hother kv hkv hkvk hnonempty
    · rcases hI n hnp v hv with ⟨r, hrdf, hrn, hmatch⟩
      exact ⟨r, hrdf, hrn, hmatch⟩
  · rw [if_neg hvp]
    have hprevne : getSel state k ≠ [] := by
      intro hprev
      refine hvp ?_
      rw [hprev]
      rfl
    refine ⟨map_fst_setSel state k _, ?_⟩
    intro n hn v hv
    rcases List.mem_cons.mp hn with hnk | hnp
    · subst hnk
      rw [getSel_setSel_of_mem state n _ hk] at hv
      rcases hwitness v hv with ⟨r, hrdf, hre, hother⟩
      refine ⟨r, hrdf, hre, ?_⟩
      intro kv hkv hnonempty
      rcases mem_setSel_elim state n _ kv hkv with hkv1 | ⟨hkvs, hkvne⟩
      · rw [hkv1]
        show r.getCol n ∈
          (getSel state n).filter (fun v => decide (v ∈ optionsFor df state n))
        rw [hre]
        exact hv
      · exact hother kv hkvs hkvne hnonempty
    · have hnk : n ≠ k := fun he => hkp (he ▸ hnp)
      rw [getSel_setSel_ne state k n _ hnk] at hv
      rcases hI n hnp v hv with ⟨r, hrdf, hrn, hmatch⟩
      refine ⟨r, hrdf, hrn, ?_⟩
      intro kv hkv hnonempty
      rcases mem_setSel_elim state k _ kv hkv with hkv1 | ⟨hkvs, hkvne⟩
      · rw [hkv1]
        have hkprev : (k, getSel state k) ∈ state := mem_of_getSel state k hk
        have hrk : r.getCol k ∈ getSel state k :=
          hmatch (k, getSel state k) hkprev hprevne
        exact List.mem_filter.mpr
          ⟨hrk, decide_eq_true (grounded_mem_options df state k r hrdf hmatch)⟩
      · exact hmatch kv hkvs hnonempty

theorem pruneFold_invariant (df : DataFrame) :
    ∀ (pending : List String) (state : FilterState) (dirty : Bool)
      (processed : List String),
      (state.map Prod.fst).Nodup →
      (∀ n ∈ pending, n ∈ state.map Prod.fst) →
      (∀ n ∈ pending, n ∉ processed) →
      pending.Nodup →
      selectionsGrounded df state processed →
      ((pending.foldl (pruneStep df) (state, dirty)).1.map Prod.fst =
         state.map Prod.fst) ∧
      selectionsGrounded df (pending.foldl (pruneStep df) (state, dirty)).1
        (pending.reverse ++ processed) := by
  intro pending
  induction pending with
  | nil =>
      intro state dirty processed _ _ _ _ hg
      exact ⟨rfl, by simpa using hg⟩
  | cons k rest ih =>
      intro state dirty processed hnd hsub hdisj hpnd hg
      have hk : k ∈ state.map Prod.fst := hsub k (List.mem_cons_self k rest)
      have hkp : k ∉ processed := hdisj k (List.mem_cons_self k rest)
      have hstep := pruneStep_invariant df state dirty processed k hnd hk hkp hg
      have hknotrest : k ∉ rest := (List.nodup_cons.mp hpnd).1
      have hrestnd : rest.Nodup := (List.nodup_cons.mp hpnd).2
      have hfold :
          (k :: rest).foldl (pruneStep df) (state, dirty) =
            rest.foldl (pruneStep df)
              ((pruneStep df (state, dirty) k).1, (pruneStep df (state, dirty) k).2) := by
        rw [List.foldl_cons]
      rw [hfold]
      have hih := ih (pruneStep df (state, dirty) k).1
          (pruneStep df (state, dirty) k).2 (k :: processed)
          (by rw [hstep.1]; exact hnd)
          (by
            intro n hn
            rw [hstep.1]
            exact hsub n (List.mem_cons.mpr (Or.inr hn)))
          (by
            intro n hn hmem
            rcases List.mem_cons.mp hmem with h1 | h1
            · exact hknotrest (h1 ▸ hn)
            · exact hdisj n (List.mem_cons.mpr (Or.inr hn)) h1)
          hrestnd
          hstep.2
      refine ⟨hih.1.trans hstep.1, ?_⟩
      refine selectionsGrounded_mono df _ _ _ ?_ hih.2
      intro n hn
      rw [List.reverse_cons, List.append_assoc] at hn
      rcases List.mem_append.mp hn with h1 | h1
      · exact List.mem_append.mpr (Or.inl h1)
      · rcases List.mem_append.mp h1 with h2 | h2
        · rcases List.mem_cons.mp h2 with h3 | h3
          · exact List.mem_append.mpr (Or.inr (List.mem_cons.mpr (Or.inl h3)))
          · simp at h3
        · exact List.mem_append.mpr (Or.inr (List.mem_cons.mpr (Or.inr h2)))

theorem pruneFold_noop (df : DataFrame) :
    ∀ (names : List String) (state : FilterState) (dirty : Bool),
      (∀ n ∈ names, n ∈ state.map Prod.fst) →
      selectionsGrounded df state (state.map Prod.fst) →
      names.foldl (pruneStep df) (state, dirty) = (state, dirty) := by
  intro names
  induction names with
  | nil => intro state dirty _ _; rfl
  | cons k rest ih =>
      intro state dirty hsub hg
      have hk : k ∈ state.map Prod.fst := hsub k (List.mem_cons_self k rest)
      have hstep : pruneStep df (state, dirty) k = (state, dirty) := by
        unfold pruneStep
        rw [prunePhaseWith_eq]
        have hfix : (getSel state k).filter
            (fun v => decide (v ∈ optionsFor df state k)) = getSel state k := by
          apply List.filter_eq_self.mpr
          intro v hv
          rcases hg k hk v hv with ⟨r, hrdf, hrk, hmatch⟩
          rw [← hrk]
          exact decide_eq_true (grounded_mem_options df state k r hrdf hmatch)
        rw [if_pos hfix]
      rw [List.foldl_cons, hstep]
      exact ih state dirty (fun n hn => hsub n (List.mem_cons.mpr (Or.inr hn))) hg

/-- Claim C5: running the option-derivation and pruning pass a second
time, with the widget capturing exactly the persisted (seeded)
selections, leaves the persisted filter state unchanged and reports no
change, hence triggers no rerun. -/
theorem display_pass_idempotent (df : DataFrame) (state : FilterState)
    (hnd : (state.map Prod.fst).Nodup) :
    displayPass df echoWidget (displayPass df echoWidget state).1 =
      ((displayPass df echoWidget state).1, false) := by
  unfold displayPass
  simp only [foldl_displayStep_echo]
  have hinv := pruneFold_invariant df (state.map Prod.fst) state false [] hnd
      (fun n hn => hn) (fun n _ => List.not_mem_nil n) hnd
      (fun n hn => absurd hn (List.not_mem_nil n))
  set s1 := ((state.map Prod.fst).foldl (pruneStep df) (state, false)).1 with hs1
  have hkeys : s1.map Prod.fst = state.map Prod.fst := hinv.1
  have hg : selectionsGrounded df s1 (s1.map Prod.fst) := by
    refine selectionsGrounded_mono df s1 _ _ ?_ hinv.2
    intro n hn
    rw [hkeys] at hn
    simp only [List.append_nil, List.mem_reverse]
    exact hn
  rw [hkeys]
  exact pruneFold_noop df (state.map Prod.fst) s1 false
    (fun n hn => by rw [hkeys]; exact hn) (by rw [hkeys] at hg ⊢; exact hg)

theorem display_pass_idempotent_witness :
    ((([("a", [1]), ("b", [2])] : FilterState).map Prod.fst).Nodup) ∧
    displayPass [[("a", 1), ("b", 2)]] echoWidget
        (displayPass [[("a", 1), ("b", 2)]] echoWidget [("a", [1]), ("b", [2])]).1 =
      ((displayPass [[("a", 1), ("b", 2)]] echoWidget [("a", [1]), ("b", [2])]).1,
       false) :=
  ⟨by decide, display_pass_idempotent _ _ (by decide)⟩

theorem getCol_cons (kv : String × Value) (rest : Row) (c : String) :
    Row.getCol (kv :: rest) c = if kv.1 = c then kv.2 else Row.getCol rest c := by
  unfold Row.getCol
  by_cases h : kv.1 = c
  · rw [List.find?_cons_of_pos _ (by simpa using h), if_pos h]
    rfl
  · rw [List.find?_cons_of_neg _ (by simpa using h), if_neg h]

theorem getCol_append_right (l1 l2 : Row) (c : String)
    (h : ∀ kv ∈ l1, kv.1 ≠ c) : Row.getCol (l1 ++ l2) c = Row.getCol l2 c := by
  induction l1 with
  | nil => rfl
  | cons kv rest ih =>
      rw [List.cons_append, getCol_cons,
        if_neg (h kv (List.mem_cons_self kv rest))]
      exact ih (fun kv2 hm => h kv2 (List.mem_cons.mpr (Or.inr hm)))

theorem keyOf_cons_skip (cs : List String) (c : String) (v : Value) (t : Row)
    (h : c ∉ cs) : keyOf cs ((c, v) :: t) = keyOf cs t := by
  unfold keyOf
  apply List.map_congr_left
  intro a ha
  have hne : ¬ ((c, v).1 = a) := by
    intro he
    exact h ((show a = c from he.symm) ▸ ha)
  rw [getCol_cons, if_neg hne]

theorem keyOf_zip (rest : Row) :
    ∀ (cols : List String) (k : List Value), cols.Nodup → k.length = cols.length →
      keyOf cols (cols.zip k ++ rest) = k := by
  intro cols
  induction cols with
  | nil =>
      intro k _ hlen
      cases k with
      | nil => rfl
      | cons v vs => simp at hlen
  | cons c cs ih =>
      intro k hnd hlen
      cases k with
      | nil => simp at hlen
      | cons v vs =>
          have hnotin : c ∉ cs := (List.nodup_cons.mp hnd).1
          have hk : keyOf (c :: cs) ((c, v) :: (cs.zip vs ++ rest)) =
              Row.getCol ((c, v) :: (cs.zip vs ++ rest)) c ::
                keyOf cs ((c, v) :: (cs.zip vs ++ rest)) := rfl
          show keyOf (c :: cs) ((c, v) :: (cs.zip vs ++ rest)) = v :: vs
          rw [hk, getCol_cons, if_pos rfl, keyOf_cons_skip cs c v _ hnotin,
            ih vs (List.nodup_cons.mp hnd).2 (by simpa using hlen)]

theorem getCol_map_self (f : String → Value) :
    ∀ (l : List String) (n : String), n ∈ l →
      Row.getCol (l.map (fun m => (m, f m))) n = f n := by
  intro l
  induction l with
  | nil => intro n h; simp at h
  | cons m ms ih =>
      intro n h
      rw [List.map_cons, getCol_cons]
      by_cases hm : m = n
      · rw [if_pos hm, hm]
      · rw [if_neg hm]
        refine ih n ?_
        rcases List.mem_cons.mp h with h1 | h1
        · exact absurd h1.symm hm
        · exact h1

theorem keyOf_groupRow (fdf : List Row) (cols numerics : List String)
    (k : List Value) (hnd : cols.Nodup) (hlen : k.length = cols.length) :
    keyOf cols (groupRow fdf cols numerics k) = k :=
  keyOf_zip _ cols k hnd hlen

theorem getCol_groupRow_numeric (fdf : List Row) (cols numerics : List String)
    (k : List Value) (n : String) (hn : n ∈ numerics) (hnotc : n ∉ cols) :
    Row.getCol (groupRow fdf cols numerics k) n =
      ((fdf.filter (fun r => decide (keyOf cols r = k))).map
        (fun r => r.getCol n)).sum := by
  unfold groupRow
  rw [getCol_append_right]
  · exact getCol_map_self _ numerics n hn
  · rintro ⟨a, b⟩ hab
    have ha : a ∈ cols := (List.of_mem_zip hab).1
    exact fun he => hnotc (he ▸ ha)

theorem snd_mem_of_mem_enumFrom {α : Type} :
    ∀ (l : List α) (i : Nat) (p : Nat × α), p ∈ l.enumFrom i → p.2 ∈ l := by
  intro l
  induction l with
  | nil => intro i p h; simp at h
  | cons x xs ih =>
      intro i p h
      rcases List.mem_cons.mp h with h1 | h1
      · rw [h1]
        exact List.mem_cons_self x xs
      · exact List.mem_cons.mpr (Or.inr (ih (i + 1) p h1))

theorem shifted_enum_labels {α : Type} (l : List α) :
    (l.enum.map (fun ir => (ir.1 + 1, ir.2))).map Prod.fst =
      (List.range l.length).map (fun i => i + 1) := by
  rw [List.map_map, ← List.enum_map_fst l, List.map_map]
  rfl

theorem shifted_enum_snd {α : Type} (l : List α) :
    (l.enum.map (fun ir => (ir.1 + 1, ir.2))).map Prod.snd = l := by
  rw [List.map_map]
  have : (Prod.snd ∘ fun ir : Nat × α => (ir.1 + 1, ir.2)) = Prod.snd := rfl
  rw [this, List.enum_map_snd]

theorem shifted_enum_map_snd_f {α β : Type} (l : List α) (f : α → β) :
    (l.enum.map (fun ir => (ir.1 + 1, ir.2))).map (fun ir => f ir.2) = l.map f := by
  rw [List.map_map]
  have h1 : ((fun ir : Nat × α => f ir.2) ∘ fun ir : Nat × α => (ir.1 + 1, ir.2)) =
      (fun ir : Nat × α => f ir.2) := rfl
  rw [h1, show (fun ir : Nat × α => f ir.2) = f ∘ Prod.snd from rfl,
    ← List.map_map, List.enum_map_snd]

/-- Claim C8 (amended): `display_df` of the aggregation variant renders
the filtered dataset grouped by exactly the filter columns whose
aggregation flag is true, with each declared numeric column summed per
group (one output row per distinct key); when no flag is true or the
filtered dataset has zero rows, it renders the ungrouped filtered view
unchanged except that every row label is incremented by one (the
original row position plus one, so the labels start at 1 only when the
first source row survives the filter). -/
theorem display_df_groupby_spec (df : DataFrame) (state : FilterState)
    (agg : AggState) (numerics : List String)
    (hndc : (aggColumns agg).Nodup)
    (hdisj : ∀ n ∈ numerics, n ∉ aggColumns agg) :
    ((aggColumns agg = [] ∨ filterFold Prod.snd df.enum state none = []) →
       displayDfGb df state agg numerics =
         (df.enum.filter (fun ir => keepsRow state none ir.2)).map
           (fun ir => (ir.1 + 1, ir.2))) ∧
    (aggColumns agg ≠ [] → filterFold Prod.snd df.enum state none ≠ [] →
       ((displayDfGb df state agg numerics).map Prod.fst =
          (List.range (displayDfGb df state agg numerics).length).map
            (fun i => i + 1)) ∧
       ((displayDfGb df state agg numerics).map
           (fun ir => keyOf (aggColumns agg) ir.2)).Nodup ∧
       (∀ kk : List Value,
          kk ∈ (displayDfGb df state agg numerics).map
              (fun ir => keyOf (aggColumns agg) ir.2) ↔
            kk ∈ ((filterFold Prod.snd df.enum state none).map Prod.snd).map
              (keyOf (aggColumns agg))) ∧
       (∀ ir ∈ displayDfGb df state agg numerics, ∀ n ∈ numerics,
          Row.getCol ir.2 n =
            ((((filterFold Prod.snd df.enum state none).map Prod.snd).filter
                (fun r => decide
                  (keyOf (aggColumns agg) r = keyOf (aggColumns agg) ir.2))).map
              (fun r => Row.getCol r n)).sum)) := by
  constructor
  · intro h
    have hcond : ¬ (aggColumns agg ≠ [] ∧
        (filterFold Prod.snd df.enum state none).length > 0) := by
      rcases h with h | h
      · exact fun hc => hc.1 h
      · intro hc
        rw [h] at hc
        simp at hc
    simp only [displayDfGb]
    rw [if_neg hcond, filterFold_eq_filter]
  · intro hc hne
    have hcond : aggColumns agg ≠ [] ∧
        (filterFold Prod.snd df.enum state none).length > 0 :=
      ⟨hc, List.length_pos.mpr hne⟩
    have hout : displayDfGb df state agg numerics =
        (groupbySum ((filterFold Prod.snd df.enum state none).map Prod.snd)
          (aggColumns agg) numerics).enum.map (fun ir => (ir.1 + 1, ir.2)) := by
      simp only [displayDfGb]
      rw [if_pos hcond]
    have hGdef : groupbySum ((filterFold Prod.snd df.enum state none).map Prod.snd)
        (aggColumns agg) numerics =
        (sortBy keyLt (uniqueList
          (((filterFold Prod.snd df.enum state none).map Prod.snd).map
            (keyOf (aggColumns agg))))).map
          (groupRow ((filterFold Prod.snd df.enum state none).map Prod.snd)
            (aggColumns agg) numerics) := rfl
    have hkeylen : ∀ kk ∈ sortBy keyLt (uniqueList
        (((filterFold Prod.snd df.enum state none).map Prod.snd).map
          (keyOf (aggColumns agg)))),
        kk.length = (aggColumns agg).length := by
      intro kk hkk
      have h1 : kk ∈ uniqueList
          (((filterFold Prod.snd df.enum state none).map Prod.snd).map
            (keyOf (aggColumns agg))) :=
        (sortBy_perm keyLt _).mem_iff.mp hkk
      have h2 := (mem_uniqueList kk _).mp h1
      rcases List.mem_map.mp h2 with ⟨r, _, he⟩
      rw [← he]
      exact List.length_map _ _
    have hGkeys : (groupbySum ((filterFold Prod.snd df.enum state none).map Prod.snd)
        (aggColumns agg) numerics).map (keyOf (aggColumns agg)) =
        sortBy keyLt (uniqueList
          (((filterFold Prod.snd df.enum state none).map Prod.snd).map
            (keyOf (aggColumns agg)))) := by
      rw [hGdef, List.map_map]
      have h1 : (sortBy keyLt (uniqueList
          (((filterFold Prod.snd df.enum state none).map Prod.snd).map
            (keyOf (aggColumns agg))))).map
            (keyOf (aggColumns agg) ∘
              groupRow ((filterFold Prod.snd df.enum state none).map Prod.snd)
                (aggColumns agg) numerics) =
          (sortBy keyLt (uniqueList
            (((filterFold Prod.snd df.enum state none).map Prod.snd).map
              (keyOf (aggColumns agg))))).map id := by
        apply List.map_congr_left
        intro kk hkk
        exact keyOf_groupRow _ _ _ kk hndc (hkeylen kk hkk)
      rw [h1, List.map_id]
    refine ⟨?_, ?_, ?_, ?_⟩
    · rw [hout]
      have hlen : ((groupbySum
          ((filterFold Prod.snd df.enum state none).map Prod.snd)
          (aggColumns agg) numerics).enum.map
            (fun ir => (ir.1 + 1, ir.2))).length =
          (groupbySum ((filterFold Prod.snd df.enum state none).map Prod.snd)
            (aggColumns agg) numerics).length := by
        simp
      rw [hlen]
      exact shifted_enum_labels _
    · rw [hout, shifted_enum_map_snd_f, hGkeys]
      exact (sortBy_perm keyLt _).nodup_iff.mpr (nodup_uniqueList _)
    · intro kk
      rw [hout, shifted_enum_map_snd_f, hGkeys]
      exact (sortBy_perm keyLt _).mem_iff.trans (mem_uniqueList kk _)
    · intro ir hir n hn
      rw [hout] at hir
      rcases List.mem_map.mp hir with ⟨ir0, hir0, he⟩
      have hsnd : ir.2 = ir0.2 := by
        rw [← he]
      have hmemG : ir0.2 ∈ groupbySum
          ((filterFold Prod.snd df.enum state none).map Prod.snd)
          (aggColumns agg) numerics :=
        snd_mem_of_mem_enumFrom _ 0 ir0 hir0
      rw [hGdef] at hmemG
      rcases List.mem_map.mp hmemG with ⟨kk, hkk, hrow⟩
      rw [hsnd, ← hrow, keyOf_groupRow _ _ _ kk hndc (hkeylen kk hkk)]
      exact getCol_groupRow_numeric _ _ _ kk n hn (hdisj n hn)

theorem display_df_groupby_spec_witness :
    (aggColumns [("a", true)]).Nodup ∧
    (∀ n ∈ (["x"] : List String), n ∉ aggColumns [("a", true)]) ∧
    ((displayDfGb [[("a", 1), ("x", 10)], [("a", 1), ("x", 20)]] []
        [("a", true)] ["x"]).map Prod.fst =
      (List.range (displayDfGb [[("a", 1), ("x", 10)], [("a", 1), ("x", 20)]] []
        [("a", true)] ["x"]).length).map (fun i => i + 1)) :=
  ⟨by decide, by decide,
   ((display_df_groupby_spec [[("a", 1), ("x", 10)], [("a", 1), ("x", 20)]] []
      [("a", true)] ["x"] (by decide) (by decide)).2 (by decide) (by decide)).1⟩

/-- Claim C8 counterexample: with no aggregation flag set and the first
source row removed by the filter, the rendered ungrouped view carries
label 2, not a renumbering that starts at 1 as the claim states. -/
theorem display_df_groupby_cex :
    displayDfGb [[("a", 1), ("x", 10)], [("a", 2), ("x", 20)]] [("a", [2])]
        [("a", false)] ["x"] = [(2, [("a", 2), ("x", 20)])] ∧
    renumberFromOne
        (filterDf [[("a", 1), ("x", 10)], [("a", 2), ("x", 20)]] [("a", [2])] none) =
      [(1, [("a", 2), ("x", 20)])] ∧
    ((2 : Nat), ([("a", 2), ("x", 20)] : Row)) ≠ (1, [("a", 2), ("x", 20)]) :=
  ⟨rfl, rfl, by decide⟩

end DynFilters
